import Mathlib

/-!
Verification model of the `vice-default-backend` service (`main.go`).

Strings from the Go code are embedded as `List Char`, so that splitting,
joining and searching can be reasoned about by structural induction.  A Go
`(T, error)` pair is embedded as `T × Option E` or `Except E T`.  The HTTP
side effects of a handler are embedded as a `Response` value describing the
single terminal write the handler performs.
-/

/-- Model of `strings.Split(s, sep)` for a one-character separator, as used
by `extractSubdomain` (`strings.Split(addr, ".")`). -/
def splitOnChar (sep : Char) : List Char → List (List Char)
  | [] => [[]]
  | c :: rest =>
    match splitOnChar sep rest with
    | [] => [[c]]
    | f :: fs => if c = sep then [] :: f :: fs else (c :: f) :: fs

/-- Model of `strings.Join(fields, sep)` for a one-character separator. -/
def joinSep (sep : Char) : List (List Char) → List Char
  | [] => []
  | [f] => f
  | f :: fs => f ++ sep :: joinSep sep fs

/-- Consume characters up to (but not including) the first character found in
`stops`; return the consumed part and the rest.  Used to model how
`url.Parse` delimits the authority and path components. -/
def takeUntil (stops : List Char) : List Char → List Char × List Char
  | [] => ([], [])
  | c :: rest =>
    if c ∈ stops then ([], c :: rest)
    else (c :: (takeUntil stops rest).1, (takeUntil stops rest).2)

/-- Whether `d` occurs as a contiguous run inside `s` (the semantics of an
unanchored regular-expression search for a quoted literal). -/
def containsSeq (d : List Char) : List Char → Bool
  | [] => d.isEmpty
  | c :: rest => d.isPrefixOf (c :: rest) || containsSeq d rest

/-- Membership in the first optional group `(a.*\.)` of the pattern built by
`AddressMatches`: a literal `a`, then any characters other than newline
(`.*`), then a literal dot. -/
def PrefixGroup (m : List Char) : Prop :=
  ∃ mid : List Char, '\n' ∉ mid ∧ m = 'a' :: (mid ++ ['.'])

/-- Membership in the trailing optional group `(:[0-9]+)` of the pattern
built by `AddressMatches`: a colon followed by one or more digits. -/
def PortGroup (m : List Char) : Prop :=
  ∃ ds : List Char, ds ≠ [] ∧ (∀ c ∈ ds, c.isDigit = true) ∧ m = ':' :: ds

/-- Semantics of Go `regexp.MatchString(pattern, addr)` for the pattern
`(a.*\.)?\Q<dom>\E(:[0-9]+)?` that `AddressMatches` builds: the search is
unanchored, so a match exists exactly when `addr` decomposes as arbitrary
leading text, an optional occurrence of the first group, the quoted literal
domain, an optional occurrence of the port group, and arbitrary trailing
text. -/
def regexpMatch (dom addr : List Char) : Prop :=
  ∃ g p q t : List Char,
    (p = [] ∨ PrefixGroup p) ∧ (q = [] ∨ PortGroup q) ∧
    addr = g ++ (p ++ (dom ++ (q ++ t)))

theorem isPrefixOf_eq_true_iff (d s : List Char) :
    d.isPrefixOf s = true ↔ ∃ t, s = d ++ t := by
  induction d generalizing s with
  | nil =>
    simp [List.isPrefixOf]
  | cons c cs ih =>
    cases s with
    | nil => simp [List.isPrefixOf]
    | cons x xs =>
      simp only [List.isPrefixOf, Bool.and_eq_true, beq_iff_eq, ih]
      constructor
      · rintro ⟨h1, t, h2⟩
        exact ⟨t, by simp [h1, h2]⟩
      · rintro ⟨t, h⟩
        simp only [List.cons_append, List.cons.injEq] at h
        exact ⟨h.1.symm, t, h.2⟩

theorem containsSeq_eq_true_iff (d s : List Char) :
    containsSeq d s = true ↔ ∃ u v, s = u ++ (d ++ v) := by
  induction s with
  | nil =>
    simp only [containsSeq, List.isEmpty_iff]
    constructor
    · rintro rfl; exact ⟨[], [], rfl⟩
    · rintro ⟨u, v, h⟩
      rcases List.append_eq_nil.mp h.symm with ⟨-, h2⟩
      exact (List.append_eq_nil.mp h2).1
  | cons c rest ih =>
    simp only [containsSeq, Bool.or_eq_true, isPrefixOf_eq_true_iff, ih]
    constructor
    · rintro (⟨t, h⟩ | ⟨u, v, h⟩)
      · exact ⟨[], t, by simp [h]⟩
      · exact ⟨c :: u, v, by simp [h]⟩
    · rintro ⟨u, v, h⟩
      cases u with
      | nil => exact Or.inl ⟨v, by simpa using h⟩
      | cons x xs =>
        simp only [List.cons_append, List.cons.injEq] at h
        exact Or.inr ⟨xs, v, h.2⟩

theorem regexpMatch_iff_containsSeq (dom addr : List Char) :
    regexpMatch dom addr ↔ containsSeq dom addr = true := by
  rw [containsSeq_eq_true_iff]
  constructor
  · rintro ⟨g, p, q, t, -, -, h⟩
    exact ⟨g ++ p, q ++ t, by simp [h]⟩
  · rintro ⟨u, v, h⟩
    exact ⟨u, [], [], v, Or.inl rfl, Or.inl rfl, by simpa using h⟩

instance (dom addr : List Char) : Decidable (regexpMatch dom addr) :=
  decidable_of_iff (containsSeq dom addr = true)
    (regexpMatch_iff_containsSeq dom addr).symm

/-- `extractSubdomain` from `main.go`: split the address on dots; with fewer
than two fields there is no subdomain; with exactly two fields the first
field is the subdomain unless it is the literal `www`; otherwise everything
up to the last two fields, re-joined with dots.  Every branch of the Go
function returns a `nil` error, embedded as the `Option` component. -/
def extractSubdomain (addr : List Char) : List Char × Option (List Char) :=
  let fields := splitOnChar '.' addr
  if fields.length < 2 then ([], none)
  else if fields.length = 2 then
    if fields.headI = "www".toList then ([], none)
    else (fields.headI, none)
  else (joinSep '.' (fields.take (fields.length - 2)), none)

/-- The components of a Go `url.URL` used by this program (`Opaque`, `User`
and `Fragment` never arise here and are not modelled). -/
structure URL where
  scheme : List Char
  host : List Char
  path : List Char
  rawQuery : List Char
deriving DecidableEq

/-- Model of Go `(*url.URL).String()` for URLs without opaque part, user
info or fragment, assuming the components need no escaping (true of every
component arising in this development, which are ASCII host names, slash
paths and already-encoded queries): write `scheme:`, then `//` when an
authority or a rooted reference requires it, the host, a separating slash
when a relative path follows a host, the path, and `?rawQuery` when the
query is non-empty. -/
def URL.render (u : URL) : List Char :=
  (if u.scheme = [] then [] else u.scheme ++ [':']) ++
  (if (u.scheme ≠ [] ∨ u.host ≠ []) ∧ (u.host ≠ [] ∨ u.path ≠ []) then ['/', '/'] else []) ++
  u.host ++
  (if u.path ≠ [] ∧ u.path.head? ≠ some '/' ∧ u.host ≠ [] then ['/'] else []) ++
  u.path ++
  (if u.rawQuery = [] then [] else '?' :: u.rawQuery)

/-- Locate the first `://` in a string, returning the part before it (the
scheme) and the part after it.  Models how `url.Parse` recognises an
absolute URL with an authority for the inputs of this program. -/
def splitScheme : List Char → Option (List Char × List Char)
  | [] => none
  | c :: rest =>
    if c = ':' ∧ rest.take 2 = ['/', '/'] then some ([], rest.drop 2)
    else
      match splitScheme rest with
      | none => none
      | some (a, b) => some (c :: a, b)

/-- After the authority, `url.Parse` reads the path up to `?` and the raw
query after it. -/
def parseAfterAuthority (s : List Char) : List Char × List Char :=
  if ((takeUntil ['?'] s).2).head? = some '?' then
    ((takeUntil ['?'] s).1, ((takeUntil ['?'] s).2).tail)
  else ((takeUntil ['?'] s).1, [])

/-- Model of Go `url.Parse` restricted to the inputs this program feeds it:
the empty string, absolute URLs `scheme://host[/path][?query]`, and strings
without a `://` (which Go parses as a bare path reference with an empty
host).  `url.Parse` returns a `nil` error on all such inputs, so the error
result is not modelled. -/
def parseURL (s : List Char) : URL :=
  match splitScheme s with
  | some (scheme, rest) =>
    { scheme := scheme,
      host := (takeUntil ['/', '?'] rest).1,
      path := (parseAfterAuthority (takeUntil ['/', '?'] rest).2).1,
      rawQuery := (parseAfterAuthority (takeUntil ['/', '?'] rest).2).2 }
  | none =>
    { scheme := [], host := [],
      path := (parseAfterAuthority s).1, rawQuery := (parseAfterAuthority s).2 }

/-- One hexadecimal digit, upper case, as produced by Go's percent
encoding. -/
def hexDigitChar (n : Nat) : Char :=
  if n < 10 then Char.ofNat ('0'.toNat + n) else Char.ofNat ('A'.toNat + n - 10)

/-- Model of Go `url.QueryEscape` on one character: space becomes `+`,
ASCII letters, digits and `-_.~` stay, everything else becomes `%XX`
(assuming ASCII input, on which Go's byte-wise escaping agrees with
character-wise escaping). -/
def queryEscapeChar (c : Char) : List Char :=
  if c = ' ' then ['+']
  else if c.isAlphanum ∨ c = '-' ∨ c = '_' ∨ c = '.' ∨ c = '~' then [c]
  else ['%', hexDigitChar (c.toNat / 16), hexDigitChar (c.toNat % 16)]

/-- Model of Go `url.QueryEscape`. -/
def queryEscape (s : List Char) : List Char :=
  (s.map queryEscapeChar).flatten

/-- Go `url.Values` (`map[string][]string`) as an association list with
distinct keys. -/
abbrev Values := List (List Char × List (List Char))

/-- Adding a key/value pair to a `url.Values`, appending to the values of an
existing key (`v[key] = append(v[key], value)` in `ParseQuery`). -/
def valuesAdd (v : Values) (k val : List Char) : Values :=
  match v with
  | [] => [(k, [val])]
  | (k2, vs) :: rest =>
    if k2 = k then (k2, vs ++ [val]) :: rest else (k2, vs) :: valuesAdd rest k val

/-- Go `(url.Values).Set`: replace all values of the key with the single
given value. -/
def valuesSet (v : Values) (k val : List Char) : Values :=
  match v with
  | [] => [(k, [val])]
  | (k2, vs) :: rest =>
    if k2 = k then (k2, [val]) :: rest else (k2, vs) :: valuesSet rest k val

/-- Model of Go `url.ParseQuery` for queries whose keys and values contain
no escape sequences (the only queries this program re-parses; Go would also
unescape `%XX` and `+`): split on `&`, skip empty chunks, and cut each chunk
at the first `=`. -/
def parseQuery (q : List Char) : Values :=
  (splitOnChar '&' q).foldl
    (fun acc kv =>
      if kv = [] then acc
      else
        valuesAdd acc (takeUntil ['='] kv).1
          (if ((takeUntil ['='] kv).2).head? = some '=' then ((takeUntil ['='] kv).2).tail
           else []))
    []

/-- Byte-wise lexicographic comparison of strings, as used by the key sort
in Go `(url.Values).Encode` (via `sort.Strings`). -/
def listCharLe : List Char → List Char → Bool
  | [], _ => true
  | _ :: _, [] => false
  | a :: as, b :: bs => if a = b then listCharLe as bs else decide (a < b)

/-- Stable insertion sort by a boolean comparison. -/
def insertSorted (le : List Char → List Char → Bool) (x : List Char × List (List Char)) :
    Values → Values
  | [] => [x]
  | y :: ys => if le x.1 y.1 then x :: y :: ys else y :: insertSorted le x ys

/-- Stable sort of a `url.Values` association list by key. -/
def sortByKey : Values → Values
  | [] => []
  | x :: xs => insertSorted listCharLe x (sortByKey xs)

/-- Model of Go `(url.Values).Encode`: keys in sorted order, each value of a
key contributing `escapedKey=escapedValue`, joined with `&`. -/
def urlValuesEncode (v : Values) : List Char :=
  joinSep '&'
    (((sortByKey v).map
      (fun kv => kv.2.map (fun x => queryEscape kv.1 ++ '=' :: queryEscape x))).flatten)

/-- The per-process configuration fields of `App` in `main.go` that the
request handler reads (`graphqlBase` only feeds the abstracted graphql
client and is not needed). -/
structure App where
  viceDomain : List Char
  landingPageURL : List Char
  loadingPageURL : List Char
  notFoundPath : List Char
  disableCustomHeaderMatch : Bool

/-- The parts of an inbound `*http.Request` that `RouteRequest` reads: the
Host header, whether a TLS session is active (`r.TLS != nil`), the request
path and raw query, and the optional `X-Frontend-Url` header
(`Header.Get` yields the empty string when the header is absent). -/
structure Request where
  host : List Char
  tls : Bool
  path : List Char
  rawQuery : List Char
  xFrontendUrl : Option (List Char)

/-- The single terminal write a handler performs: `http.Error(w, msg, code)`
or `http.Redirect(w, r, location, code)`. -/
inductive Response where
  | httpError (code : Nat) (msg : List Char)
  | redirect (code : Nat) (location : List Char)
deriving DecidableEq

/-- Whether a response is an HTTP redirect. -/
def Response.isRedirect : Response → Bool
  | .redirect _ _ => true
  | .httpError _ _ => false

/-- `FrontendAddress` from `main.go`: with `--disable-custom-header-match`
set, synthesize a URL from the request itself (scheme from TLS presence,
host, path and raw query) and render it with `(*url.URL).String()`;
otherwise return the `X-Frontend-Url` header value verbatim (the empty
string when the header is absent). -/
def FrontendAddress (a : App) (r : Request) : List Char :=
  if a.disableCustomHeaderMatch then
    URL.render
      { scheme := if r.tls then "https".toList else "http".toList,
        host := r.host, path := r.path, rawQuery := r.rawQuery }
  else (r.xFrontendUrl).getD []

/-- `AddressMatches` from `main.go`: match `addr` against the regular
expression `(a.*\.)?\Q<viceDomain>\E(:[0-9]+)?` with `regexp.MatchString`.
The pattern always compiles (the domain is `\Q`-quoted), so the error
return of `regexp.MatchString` is always `nil` and is not modelled. -/
def AddressMatches (a : App) (addr : List Char) : Prop :=
  regexpMatch a.viceDomain addr

instance (a : App) (addr : List Char) : Decidable (AddressMatches a addr) :=
  decidable_of_iff (containsSeq a.viceDomain addr = true)
    (regexpMatch_iff_containsSeq a.viceDomain addr).symm

/-- One row of the `jobs` result: a `map[string]string`. -/
abbrev Row := List (List Char × List Char)

/-- The decoded graphql response: `map[string][]map[string]string`. -/
abbrev GraphData := List (List Char × List Row)

/-- The error message built by `lookupSubdomain` when the response lacks the
`jobs` field. -/
def missingJobsMsg (subdomain : List Char) : List Char :=
  "missing jobs from graphql query for ".toList ++
    Char.ofNat 39 :: (subdomain ++ Char.ofNat 39 :: " subdomain".toList)

/-- `lookupSubdomain` from `main.go`, with the graphql client's `Run`
abstracted as its outcome for the given subdomain (`response`): a transport
error is returned as-is; a decoded data map lacking the `jobs` key is an
error; an empty `jobs` list is a definitive `(false, nil)`; a non-empty one
is `(true, nil)`. -/
def lookupSubdomain (response : Except (List Char) GraphData)
    (subdomain : List Char) : Except (List Char) Bool :=
  match response with
  | .error e => .error e
  | .ok data =>
    match List.lookup ("jobs".toList) data with
    | none => .error (missingJobsMsg subdomain)
    | some jobs => if jobs.length < 1 then .ok false else .ok true

/-- The message of the HTTP 400 response for an address outside the
configured domain. -/
def notInDomainMsg (host dom : List Char) : List Char :=
  "URL ".toList ++ (host ++ (" is not in the domain of ".toList ++ dom))

/-- The message of the HTTP 500 response for a subdomain-extraction
failure. -/
def subdomainErrMsg (host : List Char) : List Char :=
  "error getting subdomain for URL ".toList ++ host

/-- The host component of the parsed frontend address, as computed at the
top of `RouteRequest`. -/
def frontendHost (a : App) (r : Request) : List Char :=
  (parseURL (FrontendAddress a r)).host

/-- The redirect target built in the `exists` branch of `RouteRequest`:
parse the configured loading-page URL, set the query parameter `url` to the
frontend URI, re-encode the query, and render the URL. -/
def loadingRedirectLocation (a : App) (frontendURI : List Char) : List Char :=
  let loadingURL := parseURL a.loadingPageURL
  URL.render
    { loadingURL with
      rawQuery :=
        urlValuesEncode (valuesSet (parseQuery loadingURL.rawQuery) ("url".toList) frontendURI) }

/-- The tail of `RouteRequest` after the subdomain has been extracted: an
empty subdomain redirects (307) to the landing page; otherwise the
existence lookup decides between a 500 error, a 307 redirect to the loading
page with the `url` parameter attached, and a 307 redirect to the
configured not-found path. -/
def routeWithSubdomain (a : App) (lookup : List Char → Except (List Char) Bool)
    (frontendURI subdomain : List Char) : Response :=
  if subdomain = [] then .redirect 307 a.landingPageURL
  else
    match lookup subdomain with
    | .error e => .httpError 500 e
    | .ok true => .redirect 307 (loadingRedirectLocation a frontendURI)
    | .ok false => .redirect 307 a.notFoundPath

/-- `RouteRequest` from `main.go`, with the graphql lookup abstracted as
`lookup`.  The Go error branches for `url.Parse` of the frontend URI and of
the loading-page URL and for `regexp.MatchString` are not modelled: on the
inputs of this development those calls return `nil` errors (see `parseURL`
and `AddressMatches`).  An address that fails the domain match is rejected
with HTTP 400 before any subdomain extraction or lookup. -/
def RouteRequest (a : App) (lookup : List Char → Except (List Char) Bool)
    (r : Request) : Response :=
  if AddressMatches a (frontendHost a r) then
    match extractSubdomain (frontendHost a r) with
    | (subdomain, none) => routeWithSubdomain a lookup (FrontendAddress a r) subdomain
    | (_, some _) => .httpError 500 (subdomainErrMsg (frontendHost a r))
  else .httpError 400 (notInDomainMsg (frontendHost a r) a.viceDomain)

/-- `RouteRequest` with the subdomain-extraction error branch removed: the
extracted subdomain is routed directly.  Used to state that the error
branch of the real handler is unreachable. -/
def RouteRequestNoSubErr (a : App) (lookup : List Char → Except (List Char) Bool)
    (r : Request) : Response :=
  if AddressMatches a (frontendHost a r) then
    routeWithSubdomain a lookup (FrontendAddress a r)
      (extractSubdomain (frontendHost a r)).1
  else .httpError 400 (notInDomainMsg (frontendHost a r) a.viceDomain)

theorem splitOnChar_ne_nil (sep : Char) (l : List Char) : splitOnChar sep l ≠ [] := by
  cases l with
  | nil => simp [splitOnChar]
  | cons c rest =>
    simp only [splitOnChar]
    cases h : splitOnChar sep rest with
    | nil => simp
    | cons f fs => by_cases hc : c = sep <;> simp [hc]

theorem splitOnChar_no_sep (sep : Char) (l : List Char) (h : sep ∉ l) :
    splitOnChar sep l = [l] := by
  induction l with
  | nil => rfl
  | cons c rest ih =>
    have hc : c ≠ sep := by rintro rfl; exact h (List.mem_cons_self _ _)
    have hr := ih (fun hm => h (List.mem_cons_of_mem _ hm))
    simp [splitOnChar, hr, hc]

theorem splitOnChar_append_sep (sep : Char) (x y : List Char) :
    splitOnChar sep (x ++ sep :: y) = splitOnChar sep x ++ splitOnChar sep y := by
  induction x with
  | nil =>
    simp only [List.nil_append, splitOnChar]
    cases h : splitOnChar sep y with
    | nil => exact absurd h (splitOnChar_ne_nil sep y)
    | cons f fs => simp [splitOnChar]
  | cons c x ih =>
    have key : splitOnChar sep ((c :: x) ++ sep :: y) =
        match splitOnChar sep (x ++ sep :: y) with
        | [] => [[c]]
        | f :: fs => if c = sep then [] :: f :: fs else (c :: f) :: fs := rfl
    rw [key, ih]
    cases hx : splitOnChar sep x with
    | nil => exact absurd hx (splitOnChar_ne_nil sep x)
    | cons f fs =>
      by_cases hc : c = sep <;> simp [splitOnChar, hx, hc]

theorem joinSep_cons_cons (sep c : Char) (f : List Char) (fs : List (List Char)) :
    joinSep sep ((c :: f) :: fs) = c :: joinSep sep (f :: fs) := by
  cases fs <;> rfl

theorem joinSep_splitOnChar (sep : Char) (l : List Char) :
    joinSep sep (splitOnChar sep l) = l := by
  induction l with
  | nil => rfl
  | cons c rest ih =>
    simp only [splitOnChar]
    cases h : splitOnChar sep rest with
    | nil => exact absurd h (splitOnChar_ne_nil sep rest)
    | cons f fs =>
      rw [h] at ih
      by_cases hc : c = sep
      · subst hc
        simp only [if_pos rfl]
        show joinSep c ([] :: f :: fs) = c :: rest
        cases fs <;> simpa [joinSep] using ih
      · simp only [if_neg hc]
        rw [joinSep_cons_cons, ih]

theorem takeUntil_free_append (stops l r : List Char) (h : ∀ c ∈ l, c ∉ stops) :
    takeUntil stops (l ++ r) =
      (l ++ (takeUntil stops r).1, (takeUntil stops r).2) := by
  induction l with
  | nil => simp
  | cons c l ih =>
    have hc : c ∉ stops := h c (List.mem_cons_self _ _)
    simp [takeUntil, if_neg hc, ih (fun x hx => h x (List.mem_cons_of_mem _ hx))]

theorem takeUntil_stop (stops : List Char) (c : Char) (r : List Char) (h : c ∈ stops) :
    takeUntil stops (c :: r) = ([], c :: r) := by
  simp [takeUntil, h]

theorem takeUntil_free (stops l : List Char) (h : ∀ c ∈ l, c ∉ stops) :
    takeUntil stops l = (l, []) := by
  have := takeUntil_free_append stops l [] h
  simpa [takeUntil] using this

theorem splitScheme_boundary (s r : List Char) (h : ':' ∉ s) :
    splitScheme (s ++ ':' :: '/' :: '/' :: r) = some (s, r) := by
  induction s with
  | nil => simp [splitScheme]
  | cons c s ih =>
    have hc : c ≠ ':' := by rintro rfl; exact h (List.mem_cons_self _ _)
    have hr := ih (fun hm => h (List.mem_cons_of_mem _ hm))
    simp [splitScheme, hc, hr]

theorem extractSubdomain_err_none (addr : List Char) :
    (extractSubdomain addr).2 = none := by
  simp only [extractSubdomain]
  split
  · rfl
  · split
    · split <;> rfl
    · rfl

theorem extractSubdomain_append (pre d1 d2 : List Char)
    (h1 : '.' ∉ d1) (h2 : '.' ∉ d2) :
    extractSubdomain (pre ++ '.' :: (d1 ++ '.' :: d2)) = (pre, none) := by
  have hsplit : splitOnChar '.' (pre ++ '.' :: (d1 ++ '.' :: d2)) =
      splitOnChar '.' pre ++ [d1, d2] := by
    rw [splitOnChar_append_sep, splitOnChar_append_sep,
      splitOnChar_no_sep _ d1 h1, splitOnChar_no_sep _ d2 h2]
    rfl
  obtain ⟨f, fs, hpre⟩ : ∃ f fs, splitOnChar '.' pre = f :: fs := by
    cases hx : splitOnChar '.' pre with
    | nil => exact absurd hx (splitOnChar_ne_nil _ _)
    | cons f fs => exact ⟨f, fs, rfl⟩
  rw [hpre] at hsplit
  have hlen : (splitOnChar '.' (pre ++ '.' :: (d1 ++ '.' :: d2))).length =
      fs.length + 3 := by
    simp [hsplit]
  simp only [extractSubdomain, hsplit]
  have h3 : ¬ ((f :: fs ++ [d1, d2]).length < 2) := by simp
  have h4 : ¬ ((f :: fs ++ [d1, d2]).length = 2) := by simp
  rw [if_neg h3, if_neg h4]
  have htake : (f :: fs ++ [d1, d2]).take ((f :: fs ++ [d1, d2]).length - 2) =
      f :: fs := by
    have : (f :: fs ++ [d1, d2]).length - 2 = (f :: fs).length := by simp
    rw [this, List.take_left]
  rw [htake]
  have := joinSep_splitOnChar '.' pre
  rw [hpre] at this
  simp [this]

theorem extractSubdomain_two (d1 d2 : List Char) (h1 : '.' ∉ d1) (h2 : '.' ∉ d2) :
    extractSubdomain (d1 ++ '.' :: d2) =
      ((if d1 = "www".toList then [] else d1), none) := by
  have hsplit : splitOnChar '.' (d1 ++ '.' :: d2) = [d1, d2] := by
    rw [splitOnChar_append_sep, splitOnChar_no_sep _ d1 h1, splitOnChar_no_sep _ d2 h2]
    rfl
  simp only [extractSubdomain, hsplit]
  by_cases hw : d1 = ['w', 'w', 'w'] <;> simp [hw, List.headI]

theorem extractSubdomain_no_dot (addr : List Char) (h : '.' ∉ addr) :
    extractSubdomain addr = ([], none) := by
  simp [extractSubdomain, splitOnChar_no_sep _ addr h]

theorem parseURL_render (u : URL)
    (hs : u.scheme ≠ []) (hsc : ':' ∉ u.scheme)
    (hh : u.host ≠ []) (hh1 : '/' ∉ u.host) (hh2 : '?' ∉ u.host)
    (hp : u.path = [] ∨ u.path.head? = some '/') (hp2 : '?' ∉ u.path) :
    parseURL (URL.render u) = u := by
  obtain ⟨sch, host, path, q⟩ := u
  simp only at hs hsc hh hh1 hh2 hp hp2
  have hcond3 : ¬ (path ≠ [] ∧ path.head? ≠ some '/' ∧ host ≠ []) := by
    rcases hp with h | h
    · rintro ⟨h1, -, -⟩; exact h1 h
    · rintro ⟨-, h2, -⟩; exact h2 h
  have hrender : URL.render ⟨sch, host, path, q⟩ =
      sch ++ ':' :: '/' :: '/' ::
        (host ++ (path ++ (if q = [] then [] else '?' :: q))) := by
    simp only [URL.render]
    rw [if_neg hs, if_pos ⟨Or.inl hs, Or.inl hh⟩, if_neg hcond3]
    simp
  have hhostfree : ∀ c ∈ host, c ∉ (['/', '?'] : List Char) := by
    intro c hc hmem
    rcases List.mem_cons.mp hmem with rfl | hmem2
    · exact hh1 hc
    · rcases List.mem_cons.mp hmem2 with rfl | h3
      · exact hh2 hc
      · exact absurd h3 (List.not_mem_nil c)
  have hpathfree : ∀ c ∈ path, c ∉ (['?'] : List Char) := by
    intro c hc hmem
    rcases List.mem_cons.mp hmem with rfl | hmem2
    · exact hp2 hc
    · exact absurd hmem2 (List.not_mem_nil c)
  have hT : takeUntil ['/', '?'] (path ++ (if q = [] then [] else '?' :: q)) =
      ([], path ++ (if q = [] then [] else '?' :: q)) := by
    rcases hp with h | h
    · subst h
      by_cases hq : q = []
      · simp [hq, takeUntil]
      · simp only [if_neg hq, List.nil_append]
        exact takeUntil_stop _ _ _ (by simp)
    · cases path with
      | nil => simp at h
      | cons c pt =>
        have hc : c = '/' := by simpa using h
        subst hc
        simp only [List.cons_append]
        exact takeUntil_stop _ _ _ (by simp)
  have hPA : parseAfterAuthority (path ++ (if q = [] then [] else '?' :: q)) =
      (path, q) := by
    by_cases hq : q = []
    · subst hq
      simp only [if_pos rfl, List.append_nil]
      simp [parseAfterAuthority, takeUntil_free _ path hpathfree]
    · simp only [if_neg hq]
      simp [parseAfterAuthority, takeUntil_free_append ['?'] path ('?' :: q) hpathfree,
        takeUntil_stop ['?'] '?' q (by simp)]
  rw [hrender]
  simp only [parseURL, splitScheme_boundary _ _ hsc,
    takeUntil_free_append _ host _ hhostfree, hT]
  simp [hPA]

theorem routeRequest_of_matches (a : App) (lookup : List Char → Except (List Char) Bool)
    (r : Request) (hmatch : AddressMatches a (frontendHost a r)) :
    RouteRequest a lookup r =
      routeWithSubdomain a lookup (FrontendAddress a r)
        (extractSubdomain (frontendHost a r)).1 := by
  rw [RouteRequest, if_pos hmatch]
  have h2 := extractSubdomain_err_none (frontendHost a r)
  rcases hx : extractSubdomain (frontendHost a r) with ⟨s, e⟩
  rw [hx] at h2
  cases e with
  | none => rfl
  | some msg => exact absurd h2 (by simp)

theorem routeRequest_of_not_matches (a : App) (lookup : List Char → Except (List Char) Bool)
    (r : Request) (hmatch : ¬ AddressMatches a (frontendHost a r)) :
    RouteRequest a lookup r =
      .httpError 400 (notInDomainMsg (frontendHost a r) a.viceDomain) := by
  rw [RouteRequest, if_neg hmatch]

theorem addressMatches_of_decomp (a : App) (u v addr : List Char)
    (h : addr = u ++ (a.viceDomain ++ v)) : AddressMatches a addr :=
  ⟨u, [], [], v, Or.inl rfl, Or.inl rfl, by simpa using h⟩

theorem not_addressMatches_nil (a : App) (h : a.viceDomain ≠ []) :
    ¬ AddressMatches a [] := by
  rw [AddressMatches, regexpMatch_iff_containsSeq]
  simp [containsSeq, List.isEmpty_iff, h]

/-- A configuration with the default production values of `main.go`
(Host-trust mode enabled, i.e. `--disable-custom-header-match`). -/
def viceApp : App :=
  { viceDomain := "cyverse.run".toList,
    landingPageURL := "https://cyverse.run".toList,
    loadingPageURL := "https://loading.cyverse.run".toList,
    notFoundPath := "static/404.html".toList,
    disableCustomHeaderMatch := true }

/-- C1: the claim fails on the code: `evilcyverse.run` (and `notcyverse.run`)
are neither the parent domain `cyverse.run` nor dot-separated subdomains of
it, yet `AddressMatches` accepts them, because `regexp.MatchString` performs
an unanchored search and every group around the quoted domain is optional,
so any host merely containing the domain as a substring matches. -/
theorem c1_sibling_domain_matches :
    AddressMatches viceApp ("evilcyverse.run".toList) ∧
    AddressMatches viceApp ("notcyverse.run".toList) := by
  decide

/-- C2 counterexample: against the two-label parent `cyverse.run`, the code
returns `www` (not the empty string) for `www.cyverse.run` — the `www`
special case only fires on hosts with exactly two labels — and returns
`cyverse` (not the empty string) for the bare parent domain itself. -/
theorem c2_www_and_bare_parent_counterexample :
    (extractSubdomain ("www.cyverse.run".toList)).1 = "www".toList ∧
    (extractSubdomain ("cyverse.run".toList)).1 = "cyverse".toList ∧
    "www".toList ≠ ([] : List Char) ∧ "cyverse".toList ≠ ([] : List Char) := by
  decide

/-- C2 (amended): for a configured parent domain made of two dot-free
labels `d1.d2`, every non-empty dot-free label `sub` gives
`extractSubdomain("{sub}.{parent}") = sub` — including `sub = "www"`, so
`www.{parent}` yields `www`, not the empty string — and the bare parent
domain yields its own first label `d1` (not the empty string), provided
`d1` is not the literal `www`. -/
theorem c2_two_label_parent_extraction (sub d1 d2 : List Char)
    (_hsub : sub ≠ []) (_hsubdot : '.' ∉ sub)
    (h1 : '.' ∉ d1) (h2 : '.' ∉ d2) (hw : d1 ≠ "www".toList) :
    (extractSubdomain (sub ++ '.' :: (d1 ++ '.' :: d2))).1 = sub ∧
    (extractSubdomain (d1 ++ '.' :: d2)).1 = d1 := by
  constructor
  · rw [extractSubdomain_append sub d1 d2 h1 h2]
  · rw [extractSubdomain_two d1 d2 h1 h2]
    simp only [if_neg hw]

theorem c2_two_label_parent_extraction_witness :
    (extractSubdomain ("job123".toList ++ '.' :: ("cyverse".toList ++ '.' :: "run".toList))).1 =
      "job123".toList ∧
    (extractSubdomain ("cyverse".toList ++ '.' :: "run".toList)).1 = "cyverse".toList :=
  c2_two_label_parent_extraction ("job123".toList) ("cyverse".toList) ("run".toList)
    (by decide) (by decide) (by decide) (by decide) (by decide)

/-- C8: a host with three or more dot-separated labels (written as an
arbitrary leading part `pre` followed by the two dot-free trailing labels
`d1` and `d2`) yields as subdomain all labels before the trailing two,
re-joined with dots; a host with fewer than two labels (one without any
dot) yields the empty subdomain. -/
theorem c8_multi_label_extraction (pre d1 d2 bare : List Char)
    (h1 : '.' ∉ d1) (h2 : '.' ∉ d2) (hbare : '.' ∉ bare) :
    (extractSubdomain (pre ++ '.' :: (d1 ++ '.' :: d2))).1 = pre ∧
    (extractSubdomain bare).1 = [] := by
  constructor
  · rw [extractSubdomain_append pre d1 d2 h1 h2]
  · rw [extractSubdomain_no_dot bare hbare]

theorem c8_multi_label_extraction_witness :
    (extractSubdomain ("a.b".toList ++ '.' :: ("cyverse".toList ++ '.' :: "run".toList))).1 =
      "a.b".toList ∧
    (extractSubdomain ("localhost".toList)).1 = [] :=
  c8_multi_label_extraction ("a.b".toList) ("cyverse".toList) ("run".toList)
    ("localhost".toList) (by decide) (by decide) (by decide)

/-- C10: `extractSubdomain` returns a `nil` error on every input, so the
`error getting subdomain` branch of `RouteRequest` is unreachable: the
handler always behaves exactly like the handler with that branch removed. -/
theorem c10_subdomain_error_unreachable (addr : List Char) (a : App)
    (lookup : List Char → Except (List Char) Bool) (r : Request) :
    (extractSubdomain addr).2 = none ∧
    RouteRequest a lookup r = RouteRequestNoSubErr a lookup r := by
  refine ⟨extractSubdomain_err_none addr, ?_⟩
  by_cases hm : AddressMatches a (frontendHost a r)
  · rw [routeRequest_of_matches a lookup r hm, RouteRequestNoSubErr, if_pos hm]
  · rw [routeRequest_of_not_matches a lookup r hm, RouteRequestNoSubErr, if_neg hm]

/-- C9: in header-trust mode (`disableCustomHeaderMatch = false`) a request
without the `X-Frontend-Url` header resolves to the empty address, whose
host fails the domain match, so the handler answers with the HTTP 400
out-of-domain response — never with an HTTP 500 error. -/
theorem c9_absent_header_is_domain_mismatch (a : App)
    (lookup : List Char → Except (List Char) Bool) (r : Request)
    (hmode : a.disableCustomHeaderMatch = false)
    (hhdr : r.xFrontendUrl = none)
    (hdom : a.viceDomain ≠ []) :
    FrontendAddress a r = [] ∧
    RouteRequest a lookup r = .httpError 400 (notInDomainMsg [] a.viceDomain) := by
  have hFA : FrontendAddress a r = [] := by
    simp [FrontendAddress, hmode, hhdr]
  have hfh : frontendHost a r = [] := by
    rw [frontendHost, hFA]
    rfl
  refine ⟨hFA, ?_⟩
  have hnm := not_addressMatches_nil a hdom
  rw [← hfh] at hnm
  rw [routeRequest_of_not_matches a lookup r hnm, hfh]

theorem c9_absent_header_is_domain_mismatch_witness :
    FrontendAddress { viceApp with disableCustomHeaderMatch := false }
        { host := "job123.cyverse.run".toList, tls := true, path := "/".toList,
          rawQuery := [], xFrontendUrl := none } = [] ∧
    RouteRequest { viceApp with disableCustomHeaderMatch := false } (fun _ => .ok true)
        { host := "job123.cyverse.run".toList, tls := true, path := "/".toList,
          rawQuery := [], xFrontendUrl := none } =
      .httpError 400 (notInDomainMsg [] ("cyverse.run".toList)) :=
  c9_absent_header_is_domain_mismatch _ _ _ (by decide) rfl (by decide)

/-- C6: a request whose extracted subdomain is empty (and whose resolved
host passes the domain check, so that the planner reaches the subdomain
step) is redirected (HTTP 307) to the landing page, and the existence
lookup is never consulted: two handlers given arbitrary different lookups
answer identically. -/
theorem c6_empty_subdomain_landing (a : App)
    (lookup1 lookup2 : List Char → Except (List Char) Bool) (r : Request)
    (hmatch : AddressMatches a (frontendHost a r))
    (hsub : (extractSubdomain (frontendHost a r)).1 = []) :
    RouteRequest a lookup1 r = .redirect 307 a.landingPageURL ∧
    RouteRequest a lookup1 r = RouteRequest a lookup2 r := by
  have h1 := routeRequest_of_matches a lookup1 r hmatch
  have h2 := routeRequest_of_matches a lookup2 r hmatch
  rw [hsub] at h1 h2
  rw [routeWithSubdomain, if_pos rfl] at h1 h2
  exact ⟨h1, h1.trans h2.symm⟩

theorem c6_empty_subdomain_landing_witness :
    RouteRequest { viceApp with viceDomain := "run".toList }
        (fun _ => .error ("boom".toList))
        { host := "www.run".toList, tls := false, path := "/".toList,
          rawQuery := [], xFrontendUrl := none } =
      .redirect 307 ("https://cyverse.run".toList) ∧
    RouteRequest { viceApp with viceDomain := "run".toList }
        (fun _ => .error ("boom".toList))
        { host := "www.run".toList, tls := false, path := "/".toList,
          rawQuery := [], xFrontendUrl := none } =
      RouteRequest { viceApp with viceDomain := "run".toList } (fun _ => .ok true)
        { host := "www.run".toList, tls := false, path := "/".toList,
          rawQuery := [], xFrontendUrl := none } :=
  c6_empty_subdomain_landing _ _ _ _ (by decide) (by decide)

/-- C4: with a non-empty extracted subdomain (and the domain check passed),
the handler's response is exactly determined by the lookup result: a
lookup error yields HTTP 500 carrying that error (never the not-found or
loading redirect), `(false, nil)` yields the 307 redirect to the not-found
path, and `(true, nil)` yields the 307 redirect to the loading page; the
three outcomes are therefore mutually exclusive. -/
theorem c4_lookup_outcome_mapping (a : App)
    (lookup : List Char → Except (List Char) Bool) (r : Request)
    (hmatch : AddressMatches a (frontendHost a r))
    (hsub : (extractSubdomain (frontendHost a r)).1 ≠ []) :
    RouteRequest a lookup r =
      match lookup (extractSubdomain (frontendHost a r)).1 with
      | .error e => .httpError 500 e
      | .ok false => .redirect 307 a.notFoundPath
      | .ok true => .redirect 307 (loadingRedirectLocation a (FrontendAddress a r)) := by
  rw [routeRequest_of_matches a lookup r hmatch, routeWithSubdomain, if_neg hsub]
  cases hl : lookup (extractSubdomain (frontendHost a r)).1 with
  | error e => rfl
  | ok b => cases b <;> rfl

theorem c4_lookup_outcome_mapping_witness :
    RouteRequest viceApp (fun _ => .error ("graphql down".toList))
        { host := "job123.cyverse.run".toList, tls := true, path := "/".toList,
          rawQuery := [], xFrontendUrl := none } =
      .httpError 500 ("graphql down".toList) := by
  have h := c4_lookup_outcome_mapping viceApp (fun _ => .error ("graphql down".toList))
    { host := "job123.cyverse.run".toList, tls := true, path := "/".toList,
      rawQuery := [], xFrontendUrl := none } (by decide) (by decide)
  exact h

/-- C3 counterexample: a request whose existence check answers
`(false, nil)` is answered with an HTTP 307 redirect (to the configured
not-found path) — the response is a redirect, not a page served from local
storage. -/
theorem c3_not_found_is_redirect_counterexample :
    RouteRequest viceApp (fun _ => .ok false)
        { host := "ghost99.cyverse.run".toList, tls := true, path := "/".toList,
          rawQuery := [], xFrontendUrl := none } =
      .redirect 307 ("static/404.html".toList) ∧
    (Response.redirect 307 ("static/404.html".toList)).isRedirect = true := by
  decide

/-- C3 (amended): the NotFound outcome is rendered as an HTTP 307 redirect
to the configured not-found path (`{staticDir}/404.html`, composed at
startup), not by serving the static page directly from this handler. -/
theorem c3_not_found_redirects_to_404_path (a : App)
    (lookup : List Char → Except (List Char) Bool) (r : Request)
    (hmatch : AddressMatches a (frontendHost a r))
    (hsub : (extractSubdomain (frontendHost a r)).1 ≠ [])
    (hlook : lookup (extractSubdomain (frontendHost a r)).1 = .ok false) :
    RouteRequest a lookup r = .redirect 307 a.notFoundPath := by
  rw [routeRequest_of_matches a lookup r hmatch, routeWithSubdomain, if_neg hsub, hlook]

theorem c3_not_found_redirects_to_404_path_witness :
    RouteRequest viceApp (fun _ => .ok false)
        { host := "ghost99.cyverse.run".toList, tls := true, path := "/".toList,
          rawQuery := [], xFrontendUrl := none } =
      .redirect 307 (viceApp.notFoundPath) :=
  c3_not_found_redirects_to_404_path viceApp _ _ (by decide) (by decide) rfl

/-- C7: the existence lookup surfaces a present `jobs` list of length zero
as the definitive `(false, nil)` and a non-empty one as `(true, nil)`; a
decoded response without the `jobs` field becomes a non-nil error, and a
transport error from the client is propagated as an error — so the
definitive not-found is always distinguishable from a lookup failure. -/
theorem c7_lookup_result_mapping (sub e : List Char) (data data2 : GraphData)
    (rows : List Row)
    (hjobs : List.lookup ("jobs".toList) data = some rows)
    (hmiss : List.lookup ("jobs".toList) data2 = none) :
    lookupSubdomain (.ok data) sub = .ok (decide (rows ≠ [])) ∧
    lookupSubdomain (.ok data2) sub = .error (missingJobsMsg sub) ∧
    lookupSubdomain (.error e) sub = .error e ∧
    (Except.ok false : Except (List Char) Bool) ≠ .error e := by
  refine ⟨?_, ?_, rfl, by simp⟩
  · simp only [lookupSubdomain, hjobs]
    cases rows <;> simp
  · simp only [lookupSubdomain, hmiss]

theorem c7_lookup_result_mapping_witness :
    lookupSubdomain (.ok [(("jobs".toList), ([] : List Row))]) ("ghost99".toList) =
      .ok (decide (([] : List Row) ≠ [])) ∧
    lookupSubdomain (.ok ([] : GraphData)) ("ghost99".toList) =
      .error (missingJobsMsg ("ghost99".toList)) ∧
    lookupSubdomain (.error ("boom".toList)) ("ghost99".toList) = .error ("boom".toList) ∧
    (Except.ok false : Except (List Char) Bool) ≠ .error ("boom".toList) :=
  c7_lookup_result_mapping ("ghost99".toList) ("boom".toList) _ _ _ (by decide) (by decide)

theorem scheme_wf (b : Bool) :
    (if b then "https".toList else "http".toList) ≠ [] ∧
    ':' ∉ (if b then "https".toList else "http".toList) := by
  cases b <;> decide

theorem urlValuesEncode_single (uri : List Char) :
    urlValuesEncode (valuesSet (parseQuery []) ("url".toList) uri) =
      "url=".toList ++ queryEscape uri := rfl

/-- A request for `job123.cyverse.run` over TLS, used as a concrete
input. -/
def job123Req : Request :=
  { host := "job123.cyverse.run".toList, tls := true, path := "/".toList,
    rawQuery := [], xFrontendUrl := none }

/-- C5: in Host-trust mode, when the existence lookup answers `(true, nil)`
for the non-empty subdomain of a well-formed host `{sub}.{d1}.{d2}` under
the configured domain `{d1}.{d2}`, the handler answers with an HTTP 307
redirect to the configured loading-page URL carrying the reconstructed app
URL, URL-encoded, as the single query parameter `url`; and that app URL
parses back to the scheme implied by TLS, host `{sub}.{viceDomain}`, and
the inbound request's path and raw query. -/
theorem c5_loading_redirect (a : App) (lookup : List Char → Except (List Char) Bool)
    (r : Request) (sub d1 d2 : List Char)
    (hmode : a.disableCustomHeaderMatch = true)
    (hdom : a.viceDomain = d1 ++ '.' :: d2)
    (hd1 : '.' ∉ d1) (hd2 : '.' ∉ d2)
    (hhost : r.host = sub ++ '.' :: (d1 ++ '.' :: d2))
    (hsub : sub ≠ [])
    (hh1 : '/' ∉ r.host) (hh2 : '?' ∉ r.host)
    (hp : r.path = [] ∨ r.path.head? = some '/') (hp2 : '?' ∉ r.path)
    (hlq : (parseURL a.loadingPageURL).rawQuery = [])
    (hlook : lookup sub = .ok true) :
    RouteRequest a lookup r =
      .redirect 307 (URL.render
        { parseURL a.loadingPageURL with
          rawQuery := "url=".toList ++ queryEscape (FrontendAddress a r) }) ∧
    parseURL (FrontendAddress a r) =
      { scheme := if r.tls then "https".toList else "http".toList,
        host := sub ++ '.' :: a.viceDomain,
        path := r.path, rawQuery := r.rawQuery } := by
  have hFA : FrontendAddress a r =
      URL.render { scheme := if r.tls then "https".toList else "http".toList,
                   host := r.host, path := r.path, rawQuery := r.rawQuery } := by
    rw [FrontendAddress, if_pos hmode]
  have hparse : parseURL (FrontendAddress a r) =
      { scheme := if r.tls then "https".toList else "http".toList,
        host := r.host, path := r.path, rawQuery := r.rawQuery } := by
    rw [hFA]
    refine parseURL_render _ ?_ ?_ ?_ ?_ ?_ ?_ ?_
    · exact (scheme_wf r.tls).1
    · exact (scheme_wf r.tls).2
    · show r.host ≠ []
      rw [hhost]
      intro hc
      have h2c := (List.append_eq_nil.mp hc).2
      simp at h2c
    · exact hh1
    · exact hh2
    · exact hp
    · exact hp2
  have hfh : frontendHost a r = r.host := by
    rw [frontendHost, hparse]
  have hmatch : AddressMatches a (frontendHost a r) := by
    rw [hfh]
    exact addressMatches_of_decomp a (sub ++ ['.']) [] r.host
      (by rw [hhost, hdom]; simp)
  have hext : extractSubdomain (frontendHost a r) = (sub, none) := by
    rw [hfh, hhost]
    exact extractSubdomain_append sub d1 d2 hd1 hd2
  have hroute := routeRequest_of_matches a lookup r hmatch
  rw [hext] at hroute
  have hroute2 : RouteRequest a lookup r =
      routeWithSubdomain a lookup (FrontendAddress a r) sub := hroute
  simp only [routeWithSubdomain] at hroute2
  rw [if_neg hsub, hlook] at hroute2
  have hloc : loadingRedirectLocation a (FrontendAddress a r) =
      URL.render { parseURL a.loadingPageURL with
        rawQuery := "url=".toList ++ queryEscape (FrontendAddress a r) } := by
    simp only [loadingRedirectLocation, hlq, urlValuesEncode_single]
  refine ⟨?_, ?_⟩
  · rw [hroute2]
    show Response.redirect 307 (loadingRedirectLocation a (FrontendAddress a r)) = _
    rw [hloc]
  · rw [hparse, hhost, hdom]

theorem c5_loading_redirect_witness :
    RouteRequest viceApp (fun _ => .ok true) job123Req =
      .redirect 307 (URL.render
        { parseURL viceApp.loadingPageURL with
          rawQuery := "url=".toList ++ queryEscape (FrontendAddress viceApp job123Req) }) ∧
    parseURL (FrontendAddress viceApp job123Req) =
      { scheme := if job123Req.tls then "https".toList else "http".toList,
        host := "job123".toList ++ '.' :: viceApp.viceDomain,
        path := job123Req.path, rawQuery := job123Req.rawQuery } :=
  c5_loading_redirect viceApp (fun _ => .ok true) job123Req
    ("job123".toList) ("cyverse".toList) ("run".toList)
    rfl (by decide) (by decide) (by decide) (by decide) (by decide)
    (by decide) (by decide) (by decide) (by decide) (by decide) rfl
